import Mathlib

/-!
Verification of the yup-ast JSON-to-validator compiler.

The source (src/unnamed/part_000) walks an already-decoded JSON structure
(sequences, mappings, scalars) and compiles it into a validator by calling
builder functions of the external `yup` library.  We embed the JavaScript
value universe as the inductive type `Val`, the two external collaborators
(the `yup` library and the custom-validator registry) as an `Env` of
boolean membership functions, and every compiler function of the source as
a fuel-indexed function into `Except Err Val`.  Builder invocations are
kept symbolic (`Val.callMember` / `Val.callCustom` record the receiver,
the bare builder name and the argument list), since the library itself is
out of scope for the source and is specified only at its interface.
-/

namespace YupAst

/-- JavaScript runtime values manipulated by the compiler.  `str`, `num`,
`bool`, `null` and `undef` are the primitives; `regex` is a regular
expression literal (carrying its source text); `arr` and `obj` are the
JSON sequence and mapping forms; `yupRoot` is the `yup` module object;
`callMember recv name args` is the (symbolic) value returned by calling
the callable member `name` of `recv` with `args`, and `callCustom` the
value returned by a registered custom validator. -/
inductive Val where
  | str (s : String)
  | num (n : Int)
  | bool (b : Bool)
  | null
  | undef
  | regex (source : String)
  | arr (elems : List Val)
  | obj (fields : List (String × Val))
  | yupRoot
  | callMember (recv : Val) (name : String) (args : List Val)
  | callCustom (name : String) (args : List Val)
deriving Repr

/-- Errors raised during compilation.  `validation` is the source's
`ValidationError` class (thrown by `getYupFunction` and by the
`yup.matches` argument check); `typeError` is a JavaScript `TypeError`
(e.g. `Object.entries(null)`); `jsError` is the plain `Error` built by the
`transform` wrapper; `fuelOut` is an artifact of the fuel-indexed
embedding and corresponds to no runtime behaviour. -/
inductive Err where
  | validation (msg : String)
  | typeError (msg : String)
  | jsError (msg : String)
  | fuelOut
deriving Repr, DecidableEq

/-- Whether an error is the wrapped top-level kind (`new Error(...)` from
`transform`).  The internal compiler functions never produce this kind. -/
def Err.wrapped : Err → Bool
  | .jsError _ => true
  | _ => false

/-- Whether an error is the source's `ValidationError` class. -/
def Err.isValidation : Err → Bool
  | .validation _ => true
  | _ => false

/-- A resolved builder: either a callable member of `recv` bound to it
(`previousInstance[name].bind(previousInstance)` or `yup[name].bind(yup)`,
the latter with `recv = Val.yupRoot`), or a custom validator from the
registry. -/
inductive Builder where
  | member (recv : Val) (name : String)
  | custom (name : String)
deriving Repr

/-- Calling a resolved builder with an argument list produces the
corresponding symbolic call value. -/
def applyBuilder : Builder → List Val → Val
  | .member recv name, args => .callMember recv name args
  | .custom name, args => .callCustom name args

/-- The external interface: `custom name` says whether the
custom-validator registry (the `custom.validators` module, outside this
file's source) has an entry for `name`; `hasFn v name` models the
JavaScript test `typeof v[name] === 'function'`. -/
structure Env where
  custom : String → Bool
  hasFn : Val → String → Bool

/-- JavaScript truthiness of a value. -/
def jsTruthy : Val → Bool
  | .str s => s ≠ ""
  | .num n => n ≠ 0
  | .bool b => b
  | .null => false
  | .undef => false
  | _ => true

/-- Whether `typeof v` is `'object'` (note that `typeof null` is
`'object'`, and that arrays and regular expressions are objects; the
symbolic call results stand for validator objects). -/
def jsIsObjectType : Val → Bool
  | .null => true
  | .regex _ => true
  | .arr _ => true
  | .obj _ => true
  | .yupRoot => true
  | .callMember _ _ _ => true
  | .callCustom _ _ => true
  | _ => false

/-- Whether a value is a JavaScript array (`Array.isArray`). -/
def jsIsArray : Val → Bool
  | .arr _ => true
  | _ => false

/-- Index of the first occurrence of `needle` in `hay` (the model of
`String.prototype.indexOf`, with `none` for `-1`). -/
def indexOfSub (needle : List Char) : List Char → Option Nat
  | [] => if needle.isPrefixOf ([] : List Char) then some 0 else none
  | c :: t =>
    if needle.isPrefixOf (c :: t) then some 0
    else (indexOfSub needle t).map (fun i => i + 1)

/-- Whether the string `s` contains `sub` as a substring
(`s.indexOf(sub) > -1`). -/
def strContains (s sub : String) : Bool :=
  (indexOfSub sub.data s.data).isSome

mutual
/-- String coercion of a value, as performed by JavaScript string
concatenation (used in the `'Could not find validator ' + functionName`
message).  Plain objects, the module object and validator objects coerce
to `[object Object]`; array coercion joins the elements with commas,
rendering `null`/`undefined` elements as empty strings. -/
def jsToStr : Val → String
  | .str s => s
  | .num n => toString n
  | .bool b => if b then "true" else "false"
  | .null => "null"
  | .undef => "undefined"
  | .regex src => "/" ++ src ++ "/"
  | .arr xs => jsToStrList xs
  | .obj _ => "[object Object]"
  | .yupRoot => "[object Object]"
  | .callMember _ _ _ => "[object Object]"
  | .callCustom _ _ => "[object Object]"

/-- Comma-joined coercion of array elements (`Array.prototype.toString`);
`null` and `undefined` elements render as empty strings. -/
def jsToStrList : List Val → String
  | [] => ""
  | [x] =>
    match x with
    | .null => ""
    | .undef => ""
    | v => jsToStr v
  | x :: y :: t =>
    (match x with
     | .null => ""
     | .undef => ""
     | v => jsToStr v) ++ "," ++ jsToStrList (y :: t)
end

mutual
/-- JSON serialization of a value (the model of `JSON.stringify` as used
in the `transform` error wrapper; the 4-space indentation and character
escaping of the source call are not modelled, only the serialized
content).  Regular expressions, the module object and validator objects
serialize as `{}` (no own enumerable properties); `undefined` inside a
composite serializes as `null`. -/
def jsonStringify : Val → String
  | .str s => "\"" ++ s ++ "\""
  | .num n => toString n
  | .bool b => if b then "true" else "false"
  | .null => "null"
  | .undef => "null"
  | .regex _ => "\x7b\x7d"
  | .arr xs => "[" ++ jsonStringifyList xs ++ "]"
  | .obj kvs => "\x7b" ++ jsonStringifyFields kvs ++ "\x7d"
  | .yupRoot => "\x7b\x7d"
  | .callMember _ _ _ => "\x7b\x7d"
  | .callCustom _ _ => "\x7b\x7d"

/-- Serialization of array elements, comma separated. -/
def jsonStringifyList : List Val → String
  | [] => ""
  | [x] => jsonStringify x
  | x :: y :: t => jsonStringify x ++ "," ++ jsonStringifyList (y :: t)

/-- Serialization of object fields, comma separated. -/
def jsonStringifyFields : List (String × Val) → String
  | [] => ""
  | [(k, v)] => "\"" ++ k ++ "\":" ++ jsonStringify v
  | (k, v) :: p :: t =>
    "\"" ++ k ++ "\":" ++ jsonStringify v ++ "," ++ jsonStringifyFields (p :: t)
end

/-- Top-level serialization: `JSON.stringify(undefined)` is `undefined`,
which string concatenation renders as `"undefined"`. -/
def jsonStringifyTop : Val → String
  | .undef => "undefined"
  | v => jsonStringify v

/-- The source's `getSubString(string, substring)`: `null` when `string`
is falsy or the substring does not occur, otherwise the slice of `string`
after the first occurrence of `substring`.  A truthy non-string receiver
has no `indexOf` method and raises a `TypeError`.  (Inside the program the
receiver is never an array: `convertArray` dispatches array heads before
resolution and `getYupFunction` unwraps a wrapping array once, so the
array-receiver path is modelled by the same `TypeError`.) -/
def getSubString (string : Val) (substring : String) : Except Err (Option String) :=
  if jsTruthy string then
    match string with
    | .str s =>
      match indexOfSub substring.data s.data with
      | some i => .ok (some (String.mk (s.data.drop (i + substring.data.length))))
      | none => .ok none
    | _ => .error (.typeError "string.indexOf is not a function")
  else
    .ok none

/-- Lookup in the custom-validator registry (the external
`custom.validators` module).  The registry maps string names to free
builder functions; a hit yields the custom builder, bound to no object
context. -/
def getCustomValidator (env : Env) : Val → Option Builder
  | .str s => if env.custom s then some (.custom s) else none
  | _ => none

/-- The source's `getYupFunction(functionName, previousInstance)`: unwrap
a wrapping array, consult the custom registry first, then strip the
`'yup.'` marker and look the bare name up as a callable member of the
chaining context and then of the library root, and otherwise throw
`ValidationError('Could not find validator ' + functionName)`. -/
def getYupFunction (env : Env) (functionName0 : Val) (previousInstance : Val) :
    Except Err Builder :=
  let functionName :=
    match functionName0 with
    | .arr xs => xs.headD .undef
    | v => v
  match getCustomValidator env functionName with
  | some b => .ok b
  | none => do
    let yupName ← getSubString functionName "yup."
    match yupName with
    | some yn =>
      if yn ≠ "" ∧ env.hasFn previousInstance yn then
        pure (.member previousInstance yn)
      else if yn ≠ "" ∧ env.hasFn .yupRoot yn then
        pure (.member .yupRoot yn)
      else
        .error (.validation ("Could not find validator " ++ jsToStr functionName))
    | none => .error (.validation ("Could not find validator " ++ jsToStr functionName))

/-- Recursive head test of the invocation classifier: a head qualifies if
it is a string containing the `'yup.'` marker, or an array whose own head
recursively qualifies (the head of an empty array is `undefined`, which
does not qualify). -/
def headIsPrefixForm : Val → Bool
  | .arr [] => false
  | .arr (y :: _) => headIsPrefixForm y
  | .str s => strContains s "yup."
  | _ => false

/-- The source's `isPrefixNotation([functionName])` (renamed here): a
sequence is an invocation (prefix form) iff its head element qualifies
under the recursive head test. -/
def isPrefixForm (xs : List Val) : Bool :=
  headIsPrefixForm (xs.headD .undef)

/-- The source's `ensureArray`: wrap a non-array in a singleton list,
return array elements unchanged. -/
def ensureArray : Val → List Val
  | .arr xs => xs
  | v => [v]

/-- The `yup.matches` special case of `convertArray` (source lines
116-124): when the invocation name is the literal string `'yup.matches'`
and the first raw argument is not object-typed, that argument must be a
string and is replaced by a regular-expression literal built from it;
a non-object non-string first argument raises `ValidationError`.  All
other invocations pass their arguments through untouched. -/
def matchesAdjust (functionName : Val) (argsToPass : List Val) :
    Except Err (List Val) :=
  match functionName with
  | .str s =>
    if s = "yup.matches" then
      if jsIsObjectType (argsToPass.headD .undef) then .ok argsToPass
      else
        match argsToPass.headD .undef with
        | .str regexString => .ok (.regex regexString :: argsToPass.tail)
        | _ =>
          .error (.validation
            "The first argument to matches() must be either a RegExp or a string")
    else .ok argsToPass
  | _ => .ok argsToPass

/-- The model of `Object.entries`: fields of an object; index/element
pairs of an array; index/character pairs of a string; the empty list for
the remaining primitives and for regular expressions (whose `lastIndex`
is not enumerable); a `TypeError` for `null` and `undefined`.  The own
enumerable properties of the external module and validator objects are
not modelled (no input node contains them). -/
def jsEntries : Val → Except Err (List (String × Val))
  | .obj kvs => .ok kvs
  | .arr xs => .ok (xs.enum.map (fun p => (toString p.1, p.2)))
  | .str s => .ok (s.data.enum.map (fun p => (toString p.1, Val.str (String.mk [p.2]))))
  | .null => .error (.typeError "Cannot convert undefined or null to object")
  | .undef => .error (.typeError "Cannot convert undefined or null to object")
  | _ => .ok []

/-!
The recursive compiler.  The five source functions (`transformAll`,
`transformObject`, `transformArray`, `convertArray` and the loops inside
them) are mutually recursive over the input tree; we index them by a fuel
parameter, decremented at every call, to obtain a structurally recursive
embedding.  The functions always terminate on finite inputs for any
sufficiently large fuel; `Err.fuelOut` marks an exhausted budget and
corresponds to no behaviour of the source.
-/

mutual

/-- The source's `transformAll(jsonObjectOrArray, previousInstance)`: an
array is dispatched to the chain compiler when it is prefix form and is
otherwise mapped element-wise; a non-regex object-typed value goes to the
shape compiler; everything else is returned unchanged. -/
def transformAllF (env : Env) : Nat → Val → Val → Except Err Val
  | 0, _, _ => .error .fuelOut
  | fuel + 1, jsonObjectOrArray, previousInstance =>
    match jsonObjectOrArray with
    | .arr xs =>
      if isPrefixForm xs then transformArrayF env fuel xs previousInstance
      else do
        let ys ← transformAllListF env fuel xs previousInstance
        pure (.arr ys)
    | .obj _ => transformObjectF env fuel jsonObjectOrArray previousInstance
    | .null => transformObjectF env fuel jsonObjectOrArray previousInstance
    | .yupRoot => transformObjectF env fuel jsonObjectOrArray previousInstance
    | .callMember _ _ _ => transformObjectF env fuel jsonObjectOrArray previousInstance
    | .callCustom _ _ => transformObjectF env fuel jsonObjectOrArray previousInstance
    | v => .ok v

/-- Element-wise compilation of a non-prefix array
(`jsonObjectOrArray.map(i => transformAll(i, previousInstance))`): each
element is compiled independently against the same context, left to
right, stopping at the first error. -/
def transformAllListF (env : Env) : Nat → List Val → Val → Except Err (List Val)
  | 0, _, _ => .error .fuelOut
  | _ + 1, [], _ => .ok []
  | fuel + 1, x :: t, previousInstance => do
    let y ← transformAllF env fuel x previousInstance
    let ys ← transformAllListF env fuel t previousInstance
    pure (y :: ys)

/-- The source's `transformObject(jsonObject, previousInstance)`: walk
`Object.entries` of the argument and compile each value (arrays through
the chain compiler, object-typed values recursively, scalars unchanged),
rebuilding an object with the same keys. -/
def transformObjectF (env : Env) : Nat → Val → Val → Except Err Val
  | 0, _, _ => .error .fuelOut
  | fuel + 1, jsonObject, previousInstance => do
    let ents ← jsEntries jsonObject
    let fields ← transformObjectFieldsF env fuel ents previousInstance
    pure (.obj fields)

/-- The `Object.entries(...).forEach` loop of `transformObject`: array
values go to the chain compiler, object-typed values (including `null`,
which then raises a `TypeError`, and regular expressions, which become
empty objects) recurse into the shape compiler, and all other scalars
pass through unchanged. -/
def transformObjectFieldsF (env : Env) :
    Nat → List (String × Val) → Val → Except Err (List (String × Val))
  | 0, _, _ => .error .fuelOut
  | _ + 1, [], _ => .ok []
  | fuel + 1, (key, value) :: t, previousInstance => do
    let w ←
      match value with
      | .arr xs => transformArrayF env fuel xs previousInstance
      | v =>
        if jsIsObjectType v then transformObjectF env fuel v previousInstance
        else pure v
    let rest ← transformObjectFieldsF env fuel t previousInstance
    pure ((key, w) :: rest)

/-- The source's `transformArray(jsonArray, previousInstance)`: compile
the first element (the head of an empty chain is `undefined`) to obtain
the initial accumulator, then fold the remaining elements over it left to
right. -/
def transformArrayF (env : Env) : Nat → List Val → Val → Except Err Val
  | 0, _, _ => .error .fuelOut
  | fuel + 1, jsonArray, previousInstance => do
    let toReturn ← convertArrayF env fuel (jsonArray.headD .undef) previousInstance
    chainRestF env fuel jsonArray.tail toReturn previousInstance

/-- The `jsonArray.slice(1).forEach` fold of `transformArray`: apply one
chain step per element, threading the accumulator. -/
def chainRestF (env : Env) : Nat → List Val → Val → Val → Except Err Val
  | 0, _, _, _ => .error .fuelOut
  | _ + 1, [], toReturn, _ => .ok toReturn
  | fuel + 1, item :: rest, toReturn, previousInstance => do
    let next ← chainStepF env fuel item toReturn previousInstance
    chainRestF env fuel rest next previousInstance

/-- One step of the chain fold: an array element is a chained invocation
compiled against the current accumulator; the literal string `'object'`
recomputes the accumulator via the shape compiler applied to that element
(against the chain's original context); any other bare literal is
appended to the accumulator when the accumulator is a plain list and
otherwise forms the two-element list `[accumulator, literal]`. -/
def chainStepF (env : Env) : Nat → Val → Val → Val → Except Err Val
  | 0, _, _, _ => .error .fuelOut
  | fuel + 1, item, toReturn, previousInstance =>
    match item with
    | .arr _ => convertArrayF env fuel item toReturn
    | .str "object" => transformObjectF env fuel (.str "object") previousInstance
    | _ =>
      pure
        (match toReturn with
         | .arr l => .arr (l ++ [item])
         | acc => .arr [acc, item])

/-- The source's `convertArray(arrayArgument, previousInstance)`: take
the head of `ensureArray(arrayArgument)` as the invocation name; when the
name slot is itself an array, compile the whole node as a fresh chain
against the library root (the head can only be an array when
`arrayArgument` itself is one, so the node's elements are
`ensureArray arrayArgument`); otherwise resolve and invoke the named
builder. -/
def convertArrayF (env : Env) : Nat → Val → Val → Except Err Val
  | 0, _, _ => .error .fuelOut
  | fuel + 1, arrayArgument, previousInstance =>
    match (ensureArray arrayArgument).headD .undef with
    | .arr _ => transformArrayF env fuel (ensureArray arrayArgument) .yupRoot
    | fn => convertNamedF env fuel fn (ensureArray arrayArgument).tail previousInstance

/-- The named-invocation path of `convertArray`: resolve the name against
the chaining context, apply the `yup.matches` argument adjustment,
recursively compile the arguments through `transformAll`, then invoke the
builder: with zero arguments when the compiled arguments are a list with
no truthy element, with the list spread positionally when it has one, and
with the single compiled value when the compilation did not yield a
list. -/
def convertNamedF (env : Env) : Nat → Val → List Val → Val → Except Err Val
  | 0, _, _, _ => .error .fuelOut
  | fuel + 1, functionName, argsToPass, previousInstance => do
    let gotFunc ← getYupFunction env functionName previousInstance
    let args' ← matchesAdjust functionName argsToPass
    let convertedArguments ← transformAllF env fuel (.arr args') previousInstance
    match convertedArguments with
    | .arr l =>
      if (l.filter jsTruthy).length < 1 then pure (applyBuilder gotFunc [])
      else pure (applyBuilder gotFunc l)
    | w => pure (applyBuilder gotFunc [w])

end

/-- The synthetic chain `[['yup.object'], ['yup.required'],
['yup.shape', node]]` built by `transform` for a non-array input node. -/
def bareChain (node : Val) : Val :=
  .arr [.arr [.str "yup.object"], .arr [.str "yup.required"],
        .arr [.str "yup.shape", node]]

/-- The compilation performed inside `transform`'s `try` block: an array
input is compiled directly, any other input through the synthetic
object-required-shape chain. -/
def innerTransform (env : Env) (fuel : Nat) (jsonObjectOrArray : Val) :
    Except Err Val :=
  if jsIsArray jsonObjectOrArray then
    transformAllF env fuel jsonObjectOrArray .yupRoot
  else
    transformAllF env fuel (bareChain jsonObjectOrArray) .yupRoot

/-- The source's public `transform(jsonObjectOrArray)`: run the inner
compilation and wrap a `ValidationError` into a plain `Error` whose
message carries the serialized input node and the underlying message; any
other error propagates unchanged. -/
def transform (env : Env) (fuel : Nat) (jsonObjectOrArray : Val) :
    Except Err Val :=
  match innerTransform env fuel jsonObjectOrArray with
  | .ok r => .ok r
  | .error (.validation m) =>
    .error (.jsError
      ("Could not validate " ++ jsonStringifyTop jsonObjectOrArray ++ "\n" ++ m))
  | .error e => .error e

/-- The value returned by a compilation, forgetting which error occurred
on failure. -/
def resultValue : Except Err Val → Option Val
  | .ok v => some v
  | .error _ => none

/-- A concrete instantiation of the external interface used to evaluate
the compiler on closed inputs: no custom validators are registered, and
every builder name of the primitive library interface is exposed as a
callable member of the root and of every validator. -/
def demoNames : List String :=
  ["object", "shape", "required", "number", "string", "boolean", "array",
   "min", "max", "matches", "ref", "of", "oneOf"]

/-- Demo environment with an empty custom registry. -/
def demoEnv : Env :=
  { custom := fun _ => false, hasFn := fun _ n => demoNames.contains n }

/-- Demo environment whose custom registry contains the single name
`isLucky` (which lacks the `'yup.'` marker). -/
def customEnv : Env :=
  { custom := fun s => s == "isLucky", hasFn := fun _ n => demoNames.contains n }

end YupAst

namespace YupAst

/-- Claim C1: for every input node that is not a Sequence, the public
entry point `transform(node)` returns the same validator as `transform`
applied to the explicit chain
`[['yup.object'], ['yup.required'], ['yup.shape', node]]` (both run the
same inner compilation, so they succeed together with the same value and
fail together). -/
theorem transform_bare_node_equiv (env : Env) (fuel : Nat) (node : Val)
    (h : jsIsArray node = false) :
    resultValue (transform env fuel node) =
      resultValue (transform env fuel (bareChain node)) := by
  unfold transform innerTransform
  rw [h]
  have harr : jsIsArray (bareChain node) = true := rfl
  rw [harr]
  cases transformAllF env fuel (bareChain node) .yupRoot with
  | ok r => rfl
  | error e => cases e <;> rfl

/-- Witness for C1 at a concrete bare mapping. -/
theorem transform_bare_node_equiv_witness :
    jsIsArray (Val.obj [("x", Val.arr [Val.arr [Val.str "yup.number"]])]) = false ∧
    resultValue (transform demoEnv 20
        (Val.obj [("x", Val.arr [Val.arr [Val.str "yup.number"]])])) =
      resultValue (transform demoEnv 20
        (bareChain (Val.obj [("x", Val.arr [Val.arr [Val.str "yup.number"]])]))) :=
  ⟨rfl, transform_bare_node_equiv demoEnv 20
    (Val.obj [("x", Val.arr [Val.arr [Val.str "yup.number"]])]) rfl⟩

/-- The head test of the classifier distributes over the array
constructor: an array head qualifies exactly when its own elements form a
prefix-form sequence. -/
theorem headIsPrefixForm_arr (ys : List Val) :
    headIsPrefixForm (.arr ys) = isPrefixForm ys := by
  cases ys <;> rfl

/-- Claim C3: a Sequence is compiled as an invocation chain iff its head
element is a string containing the marker substring `'yup.'`, or is
itself a Sequence whose own head recursively satisfies the same test;
every other Sequence is compiled element-wise with no chaining (the empty
Sequence has no head and is never a chain). -/
theorem classifier_spec :
    (∀ env fuel xs prev,
        transformAllF env (fuel + 1) (.arr xs) prev =
          if isPrefixForm xs then transformArrayF env fuel xs prev
          else do
            let ys ← transformAllListF env fuel xs prev
            pure (.arr ys)) ∧
    (∀ x t, isPrefixForm (x :: t) = true ↔
        ((∃ s, x = .str s ∧ strContains s "yup." = true) ∨
         (∃ ys, x = .arr ys ∧ isPrefixForm ys = true))) ∧
    (isPrefixForm [] = false) ∧
    (∀ env fuel x t prev,
        transformAllListF env (fuel + 1) (x :: t) prev = do
          let y ← transformAllF env fuel x prev
          let ys ← transformAllListF env fuel t prev
          pure (y :: ys)) := by
  refine ⟨fun env fuel xs prev => rfl, fun x t => ?_, rfl,
    fun env fuel x t prev => rfl⟩
  constructor
  · intro h
    cases x with
    | str s => exact Or.inl ⟨s, rfl, h⟩
    | arr ys =>
      refine Or.inr ⟨ys, rfl, ?_⟩
      rwa [isPrefixForm, List.headD_cons, headIsPrefixForm_arr] at h
    | _ => simp [isPrefixForm, headIsPrefixForm] at h
  · intro h
    rcases h with ⟨s, rfl, hs⟩ | ⟨ys, rfl, hys⟩
    · exact hs
    · rw [isPrefixForm, List.headD_cons, headIsPrefixForm_arr]
      exact hys

/-- Witness for C3 at concrete sequences: a marker-headed chain, a
nested-head chain, and a plain list mapped element-wise. -/
theorem classifier_spec_witness :
    isPrefixForm [Val.str "yup.number", Val.num 5] = true ∧
    isPrefixForm [Val.arr [Val.str "yup.number"], Val.arr [Val.num 5]] = true ∧
    isPrefixForm [Val.num 1, Val.str "yup.number"] = false ∧
    transformAllF demoEnv 9 (.arr [Val.num 1, Val.num 2]) .yupRoot =
      .ok (.arr [Val.num 1, Val.num 2]) := by
  refine ⟨?_, ?_, ?_, ?_⟩
  · exact (classifier_spec.2.1 (Val.str "yup.number") [Val.num 5]).2
      (Or.inl ⟨"yup.number", rfl, by decide⟩)
  · exact (classifier_spec.2.1 (Val.arr [Val.str "yup.number"])
      [Val.arr [Val.num 5]]).2 (Or.inr ⟨[Val.str "yup.number"], rfl, by decide⟩)
  · decide
  · rw [classifier_spec.1 demoEnv 8 [Val.num 1, Val.num 2] .yupRoot]
    rfl

/-- Claim C8: a chain element equal to the literal string `'object'`
recomputes the accumulator by applying the Shape Compiler to that element
(the previous accumulator is discarded rather than chained or appended),
and the fold continues with the recomputed accumulator. -/
theorem shape_marker_step :
    (∀ env fuel acc prev,
        chainStepF env (fuel + 1) (.str "object") acc prev =
          transformObjectF env fuel (.str "object") prev) ∧
    (∀ env fuel rest acc prev,
        chainRestF env (fuel + 2) (.str "object" :: rest) acc prev = do
          let next ← transformObjectF env fuel (.str "object") prev
          chainRestF env (fuel + 1) rest next prev) :=
  ⟨fun env fuel acc prev => rfl, fun env fuel rest acc prev => rfl⟩

/-- Claim C10: an invocation whose name slot is itself a Sequence is
compiled by handing the whole node to the chain compiler with the library
root as context — the given chaining context is discarded, so the result
is independent of it, and the fold starts by compiling the node's first
element against the root. -/
theorem nested_name_fresh_chain :
    (∀ env fuel h t prev,
        convertArrayF env (fuel + 1) (.arr (.arr h :: t)) prev =
          transformArrayF env fuel (.arr h :: t) .yupRoot) ∧
    (∀ env fuel h t prev prev',
        convertArrayF env (fuel + 1) (.arr (.arr h :: t)) prev =
          convertArrayF env (fuel + 1) (.arr (.arr h :: t)) prev') ∧
    (∀ env fuel xs,
        transformArrayF env (fuel + 1) xs .yupRoot = do
          let toReturn ← convertArrayF env fuel (xs.headD .undef) .yupRoot
          chainRestF env fuel xs.tail toReturn .yupRoot) :=
  ⟨fun env fuel h t prev => rfl,
   fun env fuel h t prev prev' => rfl,
   fun env fuel xs => rfl⟩

/-- Claim C7: a chain element that is a bare literal (neither a Sequence
nor the shape-continuation marker `'object'`) is appended to the
accumulator when the accumulator is a plain list, and otherwise replaces
the accumulator by the two-element list `[accumulator, literal]`; the
chain is folded left-to-right starting from the compiled first
element. -/
theorem chain_literal_step :
    (∀ env fuel item acc prev, jsIsArray item = false → item ≠ .str "object" →
        chainStepF env (fuel + 1) item acc prev =
          .ok (match acc with
               | .arr l => .arr (l ++ [item])
               | a => .arr [a, item])) ∧
    (∀ env fuel xs prev,
        transformArrayF env (fuel + 1) xs prev = do
          let toReturn ← convertArrayF env fuel (xs.headD .undef) prev
          chainRestF env fuel xs.tail toReturn prev) ∧
    (∀ env fuel item rest acc prev,
        chainRestF env (fuel + 1) (item :: rest) acc prev = do
          let next ← chainStepF env fuel item acc prev
          chainRestF env fuel rest next prev) := by
  refine ⟨?_, fun env fuel xs prev => rfl, fun env fuel item rest acc prev => rfl⟩
  intro env fuel item acc prev harr hobj
  cases item with
  | arr xs => simp [jsIsArray] at harr
  | str s =>
    simp only [chainStepF]
    split <;> rfl
  | _ => rfl

/-- Witness for C7: a trailing literal after a non-list accumulator forms
a pair, and a further literal is appended to the resulting list. -/
theorem chain_literal_step_witness :
    jsIsArray (Val.str "msg") = false ∧
    chainStepF demoEnv 3 (.str "msg") (.callMember .yupRoot "ref" [.str "x"])
        .yupRoot =
      .ok (.arr [.callMember .yupRoot "ref" [.str "x"], .str "msg"]) ∧
    chainStepF demoEnv 3 (.num 7)
        (.arr [.callMember .yupRoot "ref" [.str "x"], .str "msg"]) .yupRoot =
      .ok (.arr [.callMember .yupRoot "ref" [.str "x"], .str "msg", .num 7]) :=
  ⟨rfl,
   chain_literal_step.1 demoEnv 2 (.str "msg")
     (.callMember .yupRoot "ref" [.str "x"]) .yupRoot rfl
     (by intro h; injection h with h'; exact absurd h' (by decide)),
   chain_literal_step.1 demoEnv 2 (.num 7)
     (.arr [.callMember .yupRoot "ref" [.str "x"], .str "msg"]) .yupRoot rfl
     (by intro h; exact Val.noConfusion h)⟩

/-- Binding a successful `Except` computation applies the
continuation. -/
theorem ok_bind {α β : Type} (a : α) (f : α → Except Err β) :
    ((.ok a : Except Err α) >>= f) = f a := rfl

/-- Binding a failed `Except` computation propagates the error. -/
theorem error_bind {α β : Type} (e : Err) (f : α → Except Err β) :
    ((.error e : Except Err α) >>= f) = .error e := rfl

/-- Claim C4: name resolution consults the custom registry first and a
hit wins unconditionally; otherwise the name must contain the `'yup.'`
marker, and the remainder after the marker is looked up as a callable
member of the chaining context (bound to it), then of the library root
(bound to the root); when none of these applies resolution fails with a
`ValidationError` identifying the unresolved name.  (The remainder is
also required to be non-empty — a name ending in the bare marker is
falsy and fails.) -/
theorem name_resolution_spec (env : Env) (s : String) (prev : Val) :
    (env.custom s = true → getYupFunction env (.str s) prev = .ok (.custom s)) ∧
    (env.custom s = false → getSubString (.str s) "yup." = .ok none →
        getYupFunction env (.str s) prev =
          .error (.validation ("Could not find validator " ++ s))) ∧
    (∀ r, env.custom s = false → getSubString (.str s) "yup." = .ok (some r) →
        r ≠ "" → env.hasFn prev r = true →
        getYupFunction env (.str s) prev = .ok (.member prev r)) ∧
    (∀ r, env.custom s = false → getSubString (.str s) "yup." = .ok (some r) →
        r ≠ "" → env.hasFn prev r = false → env.hasFn .yupRoot r = true →
        getYupFunction env (.str s) prev = .ok (.member .yupRoot r)) ∧
    (∀ r, env.custom s = false → getSubString (.str s) "yup." = .ok (some r) →
        env.hasFn prev r = false → env.hasFn .yupRoot r = false →
        getYupFunction env (.str s) prev =
          .error (.validation ("Could not find validator " ++ s))) ∧
    (env.custom s = false → getSubString (.str s) "yup." = .ok (some "") →
        getYupFunction env (.str s) prev =
          .error (.validation ("Could not find validator " ++ s))) := by
  refine ⟨fun hc => ?_, fun hc hsub => ?_, fun r hc hsub hr hhas => ?_,
    fun r hc hsub hr hhas hroot => ?_, fun r hc hsub hhas hroot => ?_,
    fun hc hsub => ?_⟩
  · simp [getYupFunction, getCustomValidator, hc]
  · simp only [getYupFunction, getCustomValidator, hc, if_false, Bool.false_eq_true,
      ite_false, hsub, ok_bind]
    simp [jsToStr]
  · simp only [getYupFunction, getCustomValidator, hc, Bool.false_eq_true,
      ite_false, hsub, ok_bind]
    rw [if_pos ⟨hr, hhas⟩]
    rfl
  · simp only [getYupFunction, getCustomValidator, hc, Bool.false_eq_true,
      ite_false, hsub, ok_bind]
    rw [if_neg (fun hand => by rw [hhas] at hand; exact Bool.noConfusion hand.2),
      if_pos ⟨hr, hroot⟩]
    rfl
  · simp only [getYupFunction, getCustomValidator, hc, Bool.false_eq_true,
      ite_false, hsub, ok_bind]
    rw [if_neg (fun hand => by rw [hhas] at hand; exact Bool.noConfusion hand.2),
      if_neg (fun hand => by rw [hroot] at hand; exact Bool.noConfusion hand.2)]
    simp [jsToStr]
  · simp only [getYupFunction, getCustomValidator, hc, Bool.false_eq_true,
      ite_false, hsub, ok_bind]
    rw [if_neg (fun hand => hand.1 rfl), if_neg (fun hand => hand.1 rfl)]
    simp [jsToStr]

/-- Witness for C4: the custom registry wins for `isLucky` even though
the name has no marker; `yup.number` binds the bare name `number` to the
chaining context; a marker-less name not in the registry fails with the
resolver error. -/
theorem name_resolution_spec_witness :
    getYupFunction customEnv (.str "isLucky") .yupRoot = .ok (.custom "isLucky") ∧
    getYupFunction demoEnv (.str "yup.number") .yupRoot =
      .ok (.member .yupRoot "number") ∧
    getYupFunction demoEnv (.str "number") .yupRoot =
      .error (.validation "Could not find validator number") :=
  ⟨(name_resolution_spec customEnv "isLucky" .yupRoot).1 rfl,
   (name_resolution_spec demoEnv "yup.number" .yupRoot).2.2.1 "number" rfl rfl
     (by decide) rfl,
   (name_resolution_spec demoEnv "number" .yupRoot).2.1 rfl rfl⟩

/-- Claim C6: once the name is resolved and the raw arguments are
adjusted and recursively compiled, the builder is called with zero
arguments when the compiled arguments are a list whose elements are all
falsy, with the list spread positionally when it contains a truthy
element, and with the single compiled value when the compilation did not
yield a list. -/
theorem invocation_call_policy (env : Env) (fuel : Nat) (fn : Val)
    (args : List Val) (prev : Val) (b : Builder) (args' : List Val)
    (cargs : Val)
    (h1 : getYupFunction env fn prev = .ok b)
    (h2 : matchesAdjust fn args = .ok args')
    (h3 : transformAllF env fuel (.arr args') prev = .ok cargs) :
    convertNamedF env (fuel + 1) fn args prev =
      .ok (match cargs with
           | .arr l =>
             if l.all (fun x => !jsTruthy x) then applyBuilder b []
             else applyBuilder b l
           | w => applyBuilder b [w]) := by
  simp only [convertNamedF, h1, h2, h3, ok_bind]
  cases cargs with
  | arr l =>
    by_cases hall : l.all (fun x => !jsTruthy x) = true
    · have hfilter : l.filter jsTruthy = [] := by
        rw [List.filter_eq_nil_iff]
        intro a ha
        have := (List.all_eq_true.mp hall) a ha
        simpa using this
      simp [hfilter, hall]
      rfl
    · have hne : l.filter jsTruthy ≠ [] := by
        intro hnil
        apply hall
        rw [List.all_eq_true]
        intro a ha
        have := List.filter_eq_nil_iff.mp hnil a ha
        simpa using this
      have : ¬ (l.filter jsTruthy).length < 1 := by
        intro hlt
        exact hne (List.length_eq_zero.mp (Nat.lt_one_iff.mp hlt))
      simp [this, hall]
      rfl
  | _ => rfl

/-- Witness for C6: an empty argument list yields a zero-argument call, a
truthy scalar argument list is spread, and a nested invocation compiling
to a single validator is passed as one value. -/
theorem invocation_call_policy_witness :
    convertNamedF demoEnv 9 (.str "yup.required") [] .yupRoot =
      .ok (.callMember .yupRoot "required" []) ∧
    convertNamedF demoEnv 9 (.str "yup.min") [.num 5] .yupRoot =
      .ok (.callMember .yupRoot "min" [.num 5]) ∧
    convertNamedF demoEnv 9 (.str "yup.of") [.arr [.str "yup.number"]] .yupRoot =
      .ok (.callMember .yupRoot "of" [.callMember .yupRoot "number" []]) :=
  ⟨invocation_call_policy demoEnv 8 (.str "yup.required") [] .yupRoot
     (.member .yupRoot "required") [] (.arr []) rfl rfl rfl,
   invocation_call_policy demoEnv 8 (.str "yup.min") [.num 5] .yupRoot
     (.member .yupRoot "min") [.num 5] (.arr [.num 5]) rfl rfl rfl,
   invocation_call_policy demoEnv 8 (.str "yup.of") [.arr [.str "yup.number"]]
     .yupRoot (.member .yupRoot "of") [.arr [.str "yup.number"]]
     (.callMember .yupRoot "number" []) rfl rfl rfl⟩

/-- Counterexample to claim C5 as stated: the name `xyup.matches`
resolves to the bare primitive `matches` (the remainder after the first
occurrence of the marker), yet with a numeric first argument the
invocation compiles without any error — the special case keys on the
literal full name `yup.matches`, not on the resolved bare primitive. -/
theorem matches_special_case_counterexample :
    getSubString (.str "xyup.matches") "yup." = .ok (some "matches") ∧
    convertArrayF demoEnv 6 (.arr [.str "xyup.matches", .num 5]) .yupRoot =
      .ok (.callMember .yupRoot "matches" [.num 5]) :=
  ⟨rfl, rfl⟩

/-- Claim C5 (amended): the pattern-match special case applies exactly to
invocations whose name slot is the literal string `'yup.matches'`: when
the first raw argument is not object-typed it must be a string — a
string is replaced by a regular-expression literal built from it before
the builder is called, and anything else fails with the
argument-shape `ValidationError`. -/
theorem matches_literal_name_spec (env : Env) (fuel : Nat) (args : List Val)
    (prev : Val) (b : Builder)
    (hres : getYupFunction env (.str "yup.matches") prev = .ok b) :
    (jsIsObjectType (args.headD .undef) = false →
        (∀ s, args.headD .undef ≠ .str s) →
        convertNamedF env (fuel + 1) (.str "yup.matches") args prev =
          .error (.validation
            "The first argument to matches() must be either a RegExp or a string")) ∧
    (∀ s rest, args = .str s :: rest →
        convertNamedF env (fuel + 1) (.str "yup.matches") args prev =
          convertNamedF env (fuel + 1) (.str "yup.matches") (.regex s :: rest)
            prev) ∧
    (∀ other, other ≠ "yup.matches" →
        matchesAdjust (.str other) args = .ok args) := by
  refine ⟨fun hobj hstr => ?_, fun s rest hargs => ?_, fun other hother => ?_⟩
  · have hadj : matchesAdjust (.str "yup.matches") args =
        .error (.validation
          "The first argument to matches() must be either a RegExp or a string") := by
      simp only [matchesAdjust, if_pos rfl, hobj, Bool.false_eq_true, ite_false]
      cases h : args.headD .undef <;> simp_all [jsIsObjectType]
    simp only [convertNamedF, hres, hadj, ok_bind, error_bind]
  · subst hargs
    have hadj : matchesAdjust (.str "yup.matches") (.str s :: rest) =
        .ok (.regex s :: rest) := by
      simp [matchesAdjust, jsIsObjectType]
    have hadj2 : matchesAdjust (.str "yup.matches") (.regex s :: rest) =
        .ok (.regex s :: rest) := by
      simp [matchesAdjust, jsIsObjectType]
    simp only [convertNamedF, hres, hadj, hadj2, ok_bind]
  · simp [matchesAdjust, hother]

/-- Witness for C5 (amended): with the literal name, a numeric first
argument fails with the argument-shape error, and a string first
argument is compiled exactly as the corresponding regex literal. -/
theorem matches_literal_name_spec_witness :
    convertNamedF demoEnv 6 (.str "yup.matches") [.num 5] .yupRoot =
      .error (.validation
        "The first argument to matches() must be either a RegExp or a string") ∧
    convertNamedF demoEnv 6 (.str "yup.matches") [.str "ab+c"] .yupRoot =
      convertNamedF demoEnv 6 (.str "yup.matches") [.regex "ab+c"] .yupRoot :=
  ⟨(matches_literal_name_spec demoEnv 5 [.num 5] .yupRoot
      (.member .yupRoot "matches") rfl).1 rfl
      (fun s h => by injection h),
   (matches_literal_name_spec demoEnv 5 [.str "ab+c"] .yupRoot
      (.member .yupRoot "matches") rfl).2.1 "ab+c" [] rfl⟩

/-- Scalar kinds that reach the pass-through branch of the shape
compiler (their `typeof` is neither `'object'` nor an array). -/
def isPassThruScalar : Val → Bool
  | .str _ => true
  | .num _ => true
  | .bool _ => true
  | _ => false

/-- What the shape compiler actually produces for a scalar-like value:
regular-expression literals are recursed into as objects and come out as
empty mappings; the pass-through scalars are unchanged. -/
def shapeScalarOut : Val → Val
  | .regex _ => .obj []
  | v => v

/-- Pass-through scalars are not object-typed. -/
theorem isPassThruScalar_not_object {v : Val} (h : isPassThruScalar v = true) :
    jsIsObjectType v = false := by
  cases v <;> simp_all [isPassThruScalar, jsIsObjectType]

/-- Pass-through scalars are left unchanged by the shape compiler's
scalar handling. -/
theorem shapeScalarOut_scalar {v : Val} (h : isPassThruScalar v = true) :
    shapeScalarOut v = v := by
  cases v <;> simp_all [isPassThruScalar, shapeScalarOut]

/-- A regular-expression literal compiled as a shape yields the empty
mapping (its `Object.entries` is empty). -/
theorem transformObject_regex (env : Env) (s : String) (prev : Val)
    (fuel : Nat) (h : 2 ≤ fuel) :
    transformObjectF env fuel (.regex s) prev = .ok (.obj []) := by
  match fuel, h with
  | fuel + 2, _ => rfl

/-- The field loop of the shape compiler maps pass-through scalars to
themselves and regex values to empty mappings, given enough fuel. -/
theorem shape_fields_scalar (env : Env) (prev : Val) :
    ∀ (kvs : List (String × Val)) (fuel : Nat),
      (∀ p ∈ kvs, isPassThruScalar p.2 = true ∨ ∃ s, p.2 = Val.regex s) →
      kvs.length + 2 ≤ fuel →
      transformObjectFieldsF env fuel kvs prev =
        .ok (kvs.map (fun p => (p.1, shapeScalarOut p.2))) := by
  intro kvs
  induction kvs with
  | nil =>
    intro fuel _ hfuel
    match fuel, hfuel with
    | fuel + 2, _ => rfl
  | cons p t ih =>
    intro fuel hvals hfuel
    match fuel, hfuel with
    | fuel + 3, hfuel =>
      obtain ⟨k, v⟩ := p
      have hrec := ih (fuel + 2)
        (fun q hq => hvals q (List.mem_cons_of_mem _ hq))
        (by simp only [List.length_cons] at hfuel; omega)
      rcases hvals (k, v) (List.mem_cons_self _ _) with hs | ⟨s, rfl⟩
      · cases v with
        | str s =>
          have step : transformObjectFieldsF env (fuel + 3)
              ((k, Val.str s) :: t) prev =
                (transformObjectFieldsF env (fuel + 2) t prev >>= fun rest =>
                  pure ((k, Val.str s) :: rest)) := rfl
          rw [step, hrec]; rfl
        | num n =>
          have step : transformObjectFieldsF env (fuel + 3)
              ((k, Val.num n) :: t) prev =
                (transformObjectFieldsF env (fuel + 2) t prev >>= fun rest =>
                  pure ((k, Val.num n) :: rest)) := rfl
          rw [step, hrec]; rfl
        | bool b =>
          have step : transformObjectFieldsF env (fuel + 3)
              ((k, Val.bool b) :: t) prev =
                (transformObjectFieldsF env (fuel + 2) t prev >>= fun rest =>
                  pure ((k, Val.bool b) :: rest)) := rfl
          rw [step, hrec]; rfl
        | _ => simp [isPassThruScalar] at hs
      · have step : transformObjectFieldsF env (fuel + 3)
            ((k, Val.regex s) :: t) prev =
              (transformObjectFieldsF env (fuel + 2) t prev >>= fun rest =>
                pure ((k, Val.obj []) :: rest)) := rfl
        rw [step, hrec]; rfl

/-- The field loop hits the `TypeError` of `Object.entries(null)` as
soon as it reaches a `null` value, after passing over leading
pass-through scalars. -/
theorem shape_fields_null (env : Env) (prev : Val) (k : String)
    (post : List (String × Val)) :
    ∀ (pre : List (String × Val)) (fuel : Nat),
      (∀ p ∈ pre, isPassThruScalar p.2 = true) →
      pre.length + 2 ≤ fuel →
      transformObjectFieldsF env fuel (pre ++ (k, Val.null) :: post) prev =
        .error (.typeError "Cannot convert undefined or null to object") := by
  intro pre
  induction pre with
  | nil =>
    intro fuel _ hfuel
    match fuel, hfuel with
    | fuel + 2, _ => rfl
  | cons p t ih =>
    intro fuel hvals hfuel
    match fuel, hfuel with
    | fuel + 3, hfuel =>
      obtain ⟨k0, v0⟩ := p
      have hs := hvals (k0, v0) (List.mem_cons_self _ _)
      have hrec := ih (fuel + 2)
        (fun q hq => hvals q (List.mem_cons_of_mem _ hq))
        (by simp only [List.length_cons] at hfuel; omega)
      cases v0 with
      | str s =>
        have step : transformObjectFieldsF env (fuel + 3)
            (((k0, Val.str s) :: t) ++ (k, Val.null) :: post) prev =
              (transformObjectFieldsF env (fuel + 2)
                  (t ++ (k, Val.null) :: post) prev >>= fun rest =>
                pure ((k0, Val.str s) :: rest)) := rfl
        rw [step, hrec]; rfl
      | num n =>
        have step : transformObjectFieldsF env (fuel + 3)
            (((k0, Val.num n) :: t) ++ (k, Val.null) :: post) prev =
              (transformObjectFieldsF env (fuel + 2)
                  (t ++ (k, Val.null) :: post) prev >>= fun rest =>
                pure ((k0, Val.num n) :: rest)) := rfl
        rw [step, hrec]; rfl
      | bool b =>
        have step : transformObjectFieldsF env (fuel + 3)
            (((k0, Val.bool b) :: t) ++ (k, Val.null) :: post) prev =
              (transformObjectFieldsF env (fuel + 2)
                  (t ++ (k, Val.null) :: post) prev >>= fun rest =>
                pure ((k0, Val.bool b) :: rest)) := rfl
        rw [step, hrec]; rfl
      | _ => simp [isPassThruScalar] at hs

/-- Counterexample to claim C9 as stated: a `null` value in a mapping
makes shape compilation raise a `TypeError` (instead of passing `null`
through), and a regular-expression value is bound to an empty mapping
(instead of the regex itself). -/
theorem scalar_shape_counterexample :
    transformObjectF demoEnv 5 (.obj [("a", .null)]) .yupRoot =
      .error (.typeError "Cannot convert undefined or null to object") ∧
    transformObjectF demoEnv 5 (.obj [("a", .regex "abc")]) .yupRoot =
      .ok (.obj [("a", .obj [])]) :=
  ⟨rfl, rfl⟩

/-- Claim C9 (amended): for a Mapping whose values are string, number or
boolean scalars or regular-expression literals, shape compilation raises
no error and binds each key to its scalar unchanged — except that a
regular-expression value is bound to an empty mapping; a `null` value
(reached after any leading pass-through scalars) instead makes shape
compilation raise a `TypeError`. -/
theorem scalar_shape_spec (env : Env) (prev : Val) :
    (∀ fuel kvs,
        (∀ p ∈ kvs, isPassThruScalar p.2 = true ∨ ∃ s, p.2 = Val.regex s) →
        kvs.length + 2 ≤ fuel →
        transformObjectF env (fuel + 1) (.obj kvs) prev =
          .ok (.obj (kvs.map (fun p => (p.1, shapeScalarOut p.2))))) ∧
    (∀ fuel pre k post,
        (∀ p ∈ pre, isPassThruScalar p.2 = true) →
        pre.length + 2 ≤ fuel →
        transformObjectF env (fuel + 1) (.obj (pre ++ (k, Val.null) :: post))
            prev =
          .error (.typeError "Cannot convert undefined or null to object")) := by
  constructor
  · intro fuel kvs hvals hfuel
    simp only [transformObjectF, jsEntries, ok_bind]
    rw [shape_fields_scalar env prev kvs fuel hvals hfuel]
    rfl
  · intro fuel pre k post hvals hfuel
    simp only [transformObjectF, jsEntries, ok_bind]
    rw [shape_fields_null env prev k post pre fuel hvals hfuel]
    rfl

/-- Witness for C9 (amended): a mapping of three pass-through scalars
compiles to itself, and a mapping with a `null` value after a scalar
raises the `TypeError`. -/
theorem scalar_shape_spec_witness :
    transformObjectF demoEnv 6
        (.obj [("a", .num 3), ("b", .str "t"), ("c", .bool true)]) .yupRoot =
      .ok (.obj [("a", .num 3), ("b", .str "t"), ("c", .bool true)]) ∧
    transformObjectF demoEnv 6 (.obj [("a", .num 3), ("k", .null)]) .yupRoot =
      .error (.typeError "Cannot convert undefined or null to object") :=
  ⟨(scalar_shape_spec demoEnv .yupRoot).1 5
     [("a", .num 3), ("b", .str "t"), ("c", .bool true)]
     (by intro p hp; simp at hp; rcases hp with rfl | rfl | rfl <;>
        exact Or.inl rfl)
     (by decide),
   (scalar_shape_spec demoEnv .yupRoot).2 5 [("a", .num 3)] "k" []
     (by intro p hp; simp at hp; subst hp; rfl)
     (by decide)⟩

/-- Decomposition of a failing `Except` bind: either the first
computation failed with the same error, or it succeeded and the
continuation failed. -/
theorem bind_eq_error {α β : Type} {x : Except Err α} {f : α → Except Err β}
    {e : Err} (h : (x >>= f) = .error e) :
    x = .error e ∨ ∃ a, x = .ok a ∧ f a = .error e := by
  cases x with
  | error e' =>
    rw [error_bind] at h
    injection h with h'
    exact Or.inl (congrArg Except.error h')
  | ok a => rw [ok_bind] at h; exact Or.inr ⟨a, rfl, h⟩

/-- Errors of `getSubString` are `TypeError`s, never the wrapped kind. -/
theorem getSubString_no_wrap {v : Val} {sub : String} {e : Err}
    (h : getSubString v sub = .error e) : e.wrapped = false := by
  simp only [getSubString] at h
  split at h
  · split at h
    · split at h <;> exact Except.noConfusion h
    · injection h with h'
      subst h'
      rfl
  · exact Except.noConfusion h

/-- Errors of the name resolver are `ValidationError`s or `TypeError`s,
never the wrapped kind. -/
theorem getYupFunction_no_wrap {env : Env} {fn prev : Val} {e : Err}
    (h : getYupFunction env fn prev = .error e) : e.wrapped = false := by
  simp only [getYupFunction] at h
  split at h
  · exact Except.noConfusion h
  · rcases bind_eq_error h with herr | ⟨a, _, hcont⟩
    · exact getSubString_no_wrap herr
    · split at hcont
      · split at hcont
        · exact Except.noConfusion hcont
        · split at hcont
          · exact Except.noConfusion hcont
          · injection hcont with h'; subst h'; rfl
      · injection hcont with h'; subst h'; rfl

/-- Errors of the `yup.matches` argument adjustment are
`ValidationError`s, never the wrapped kind. -/
theorem matchesAdjust_no_wrap {fn : Val} {args : List Val} {e : Err}
    (h : matchesAdjust fn args = .error e) : e.wrapped = false := by
  simp only [matchesAdjust] at h
  split at h
  · split at h
    · split at h
      · exact Except.noConfusion h
      · split at h
        · exact Except.noConfusion h
        · injection h with h'; subst h'; rfl
    · exact Except.noConfusion h
  · exact Except.noConfusion h

/-- Errors of `Object.entries` are `TypeError`s, never the wrapped
kind. -/
theorem jsEntries_no_wrap {v : Val} {e : Err}
    (h : jsEntries v = .error e) : e.wrapped = false := by
  cases v <;> simp only [jsEntries] at h <;>
    first
    | exact Except.noConfusion h
    | (injection h with h'; subst h'; rfl)

/-- No internal compiler function ever returns the wrapped top-level
error kind: their errors are the resolver's and adjuster's
`ValidationError`s, `TypeError`s from the JavaScript runtime, or the
fuel artifact — wrapping happens only in the public entry point. -/
theorem internal_no_wrap : ∀ fuel : Nat,
    (∀ env v prev e, transformAllF env fuel v prev = .error e →
        e.wrapped = false) ∧
    (∀ env xs prev e, transformAllListF env fuel xs prev = .error e →
        e.wrapped = false) ∧
    (∀ env v prev e, transformObjectF env fuel v prev = .error e →
        e.wrapped = false) ∧
    (∀ env kvs prev e, transformObjectFieldsF env fuel kvs prev = .error e →
        e.wrapped = false) ∧
    (∀ env xs prev e, transformArrayF env fuel xs prev = .error e →
        e.wrapped = false) ∧
    (∀ env rest acc prev e, chainRestF env fuel rest acc prev = .error e →
        e.wrapped = false) ∧
    (∀ env item acc prev e, chainStepF env fuel item acc prev = .error e →
        e.wrapped = false) ∧
    (∀ env a prev e, convertArrayF env fuel a prev = .error e →
        e.wrapped = false) ∧
    (∀ env fn args prev e, convertNamedF env fuel fn args prev = .error e →
        e.wrapped = false) := by
  intro fuel
  induction fuel with
  | zero =>
    refine ⟨?_, ?_, ?_, ?_, ?_, ?_, ?_, ?_, ?_⟩ <;> intros <;> rename_i h <;>
      (injection h with h'; subst h'; rfl)
  | succ fuel ih =>
    obtain ⟨ihAll, ihList, ihObj, ihFields, ihArr, ihRest, ihStep, ihConv,
      ihNamed⟩ := ih
    refine ⟨?_, ?_, ?_, ?_, ?_, ?_, ?_, ?_, ?_⟩
    · intro env v prev e h
      cases v with
      | arr xs =>
        simp only [transformAllF] at h
        by_cases hp : isPrefixForm xs
        · rw [if_pos hp] at h
          exact ihArr env xs prev e h
        · rw [if_neg hp] at h
          rcases bind_eq_error h with herr | ⟨a, _, hcont⟩
          · exact ihList env xs prev e herr
          · exact Except.noConfusion hcont
      | obj kvs => exact ihObj env _ prev e h
      | null => exact ihObj env _ prev e h
      | yupRoot => exact ihObj env _ prev e h
      | callMember r nm as => exact ihObj env _ prev e h
      | callCustom nm as => exact ihObj env _ prev e h
      | str s => exact Except.noConfusion h
      | num n => exact Except.noConfusion h
      | bool b => exact Except.noConfusion h
      | undef => exact Except.noConfusion h
      | regex src => exact Except.noConfusion h
    · intro env xs prev e h
      cases xs with
      | nil => exact Except.noConfusion h
      | cons x t =>
        simp only [transformAllListF] at h
        rcases bind_eq_error h with herr | ⟨y, _, hcont⟩
        · exact ihAll env x prev e herr
        · rcases bind_eq_error hcont with herr2 | ⟨ys, _, hcont2⟩
          · exact ihList env t prev e herr2
          · exact Except.noConfusion hcont2
    · intro env v prev e h
      simp only [transformObjectF] at h
      rcases bind_eq_error h with herr | ⟨ents, _, hcont⟩
      · exact jsEntries_no_wrap herr
      · rcases bind_eq_error hcont with herr2 | ⟨fields, _, hcont2⟩
        · exact ihFields env ents prev e herr2
        · exact Except.noConfusion hcont2
    · intro env kvs prev e h
      cases kvs with
      | nil => exact Except.noConfusion h
      | cons p t =>
        obtain ⟨k, v⟩ := p
        simp only [transformObjectFieldsF] at h
        have step : ∀ (w : Except Err Val),
            (do
              let y ← w
              let rest ← transformObjectFieldsF env fuel t prev
              pure ((k, y) :: rest)) = Except.error e →
            (∀ e', w = .error e' → Err.wrapped e' = false) →
            e.wrapped = false := by
          intro w hw hsafe
          rcases bind_eq_error hw with herr | ⟨y, _, hcont⟩
          · exact hsafe e herr
          · rcases bind_eq_error hcont with herr2 | ⟨rest, _, hcont2⟩
            · exact ihFields env t prev e herr2
            · exact Except.noConfusion hcont2
        cases v with
        | arr xs =>
          exact step (transformArrayF env fuel xs prev) h
            (fun e' he' => ihArr env xs prev e' he')
        | obj kvs2 =>
          exact step (transformObjectF env fuel (.obj kvs2) prev) h
            (fun e' he' => ihObj env _ prev e' he')
        | null =>
          exact step (transformObjectF env fuel .null prev) h
            (fun e' he' => ihObj env _ prev e' he')
        | regex src =>
          exact step (transformObjectF env fuel (.regex src) prev) h
            (fun e' he' => ihObj env _ prev e' he')
        | yupRoot =>
          exact step (transformObjectF env fuel .yupRoot prev) h
            (fun e' he' => ihObj env _ prev e' he')
        | callMember r nm as =>
          exact step (transformObjectF env fuel (.callMember r nm as) prev) h
            (fun e' he' => ihObj env _ prev e' he')
        | callCustom nm as =>
          exact step (transformObjectF env fuel (.callCustom nm as) prev) h
            (fun e' he' => ihObj env _ prev e' he')
        | str s =>
          exact step (pure (.str s)) h (fun e' he' => Except.noConfusion he')
        | num n =>
          exact step (pure (.num n)) h (fun e' he' => Except.noConfusion he')
        | bool b =>
          exact step (pure (.bool b)) h (fun e' he' => Except.noConfusion he')
        | undef =>
          exact step (pure .undef) h (fun e' he' => Except.noConfusion he')
    · intro env xs prev e h
      simp only [transformArrayF] at h
      rcases bind_eq_error h with herr | ⟨r, _, hcont⟩
      · exact ihConv env _ prev e herr
      · exact ihRest env _ r prev e hcont
    · intro env rest acc prev e h
      cases rest with
      | nil => exact Except.noConfusion h
      | cons item t =>
        simp only [chainRestF] at h
        rcases bind_eq_error h with herr | ⟨next, _, hcont⟩
        · exact ihStep env item acc prev e herr
        · exact ihRest env t next prev e hcont
    · intro env item acc prev e h
      cases item with
      | arr xs => exact ihConv env _ acc e h
      | str s =>
        by_cases hs : s = "object"
        · subst hs
          exact ihObj env _ prev e h
        · have hobj : Val.str s ≠ Val.str "object" :=
            fun hh => hs (Val.str.inj hh)
          simp only [chainStepF] at h
          exact Except.noConfusion h
      | num n => exact Except.noConfusion h
      | bool b => exact Except.noConfusion h
      | null => exact Except.noConfusion h
      | undef => exact Except.noConfusion h
      | regex src => exact Except.noConfusion h
      | obj kvs => exact Except.noConfusion h
      | yupRoot => exact Except.noConfusion h
      | callMember r nm as => exact Except.noConfusion h
      | callCustom nm as => exact Except.noConfusion h
    · intro env a prev e h
      simp only [convertArrayF] at h
      split at h
      · exact ihArr env _ .yupRoot e h
      · exact ihNamed env _ _ prev e h
    · intro env fn args prev e h
      simp only [convertNamedF] at h
      rcases bind_eq_error h with herr | ⟨b, _, hcont⟩
      · exact getYupFunction_no_wrap herr
      · rcases bind_eq_error hcont with herr2 | ⟨args', _, hcont2⟩
        · exact matchesAdjust_no_wrap herr2
        · rcases bind_eq_error hcont2 with herr3 | ⟨cargs, _, hcont3⟩
          · exact ihAll env _ prev e herr3
          · cases cargs with
            | arr l =>
              have hpure : ∀ (c : Prop) (inst : Decidable c) (x y : Val),
                  (@ite _ c inst (pure x : Except Err Val) (pure y)) ≠
                    .error e := by
                intro c inst x y hh
                cases inst with
                | isTrue hc => exact Except.noConfusion hh
                | isFalse hc => exact Except.noConfusion hh
              exact absurd hcont3 (hpure _ _ _ _)
            | str s => exact Except.noConfusion hcont3
            | num n => exact Except.noConfusion hcont3
            | bool b2 => exact Except.noConfusion hcont3
            | null => exact Except.noConfusion hcont3
            | undef => exact Except.noConfusion hcont3
            | regex src => exact Except.noConfusion hcont3
            | obj kvs => exact Except.noConfusion hcont3
            | yupRoot => exact Except.noConfusion hcont3
            | callMember r nm as => exact Except.noConfusion hcont3
            | callCustom nm as => exact Except.noConfusion hcont3

/-- Claim C2: the public entry point wraps a `ValidationError` raised
during compilation into a plain error whose message carries the
serialized original input node and the underlying message; an error of
any other kind propagates out of `transform` unchanged; the internal
compiler functions never produce the wrapped kind themselves; and the
invocation compiler passes an argument-compilation error through
unchanged. -/
theorem error_wrapping_spec :
    (∀ env fuel v m, innerTransform env fuel v = .error (.validation m) →
        transform env fuel v =
          .error (.jsError
            ("Could not validate " ++ jsonStringifyTop v ++ "
" ++ m))) ∧
    (∀ env fuel v e, innerTransform env fuel v = .error e →
        e.isValidation = false → transform env fuel v = .error e) ∧
    (∀ env fuel v prev e, transformAllF env fuel v prev = .error e →
        e.wrapped = false) ∧
    (∀ env fuel fn args prev b args' e,
        getYupFunction env fn prev = .ok b →
        matchesAdjust fn args = .ok args' →
        transformAllF env fuel (.arr args') prev = .error e →
        convertNamedF env (fuel + 1) fn args prev = .error e) := by
  refine ⟨fun env fuel v m h => ?_, fun env fuel v e h he => ?_,
    fun env fuel v prev e h => (internal_no_wrap fuel).1 env v prev e h,
    fun env fuel fn args prev b args' e h1 h2 h3 => ?_⟩
  · rw [transform, h]
  · rw [transform, h]
    cases e with
    | validation m => exact absurd he (by simp [Err.isValidation])
    | _ => rfl
  · simp only [convertNamedF, h1, h2, h3, ok_bind, error_bind]

/-- Witness for C2: an unresolvable invocation is wrapped with the
serialized node, a `TypeError` from a numeric invocation head propagates
unchanged, and an argument-compilation error surfaces unchanged from the
invocation compiler. -/
theorem error_wrapping_spec_witness :
    transform demoEnv 20 (.arr [.arr [.str "yup.bogus"]]) =
      .error (.jsError
        ("Could not validate " ++
          jsonStringifyTop (.arr [.arr [.str "yup.bogus"]]) ++ "
" ++
          "Could not find validator yup.bogus")) ∧
    transform demoEnv 20 (.arr [.arr [.str "yup.number"], .arr [.num 5]]) =
      .error (.typeError "string.indexOf is not a function") ∧
    convertNamedF demoEnv 11 (.str "yup.min") [.arr [.str "yup.bogus"]]
        .yupRoot =
      .error (.validation "Could not find validator yup.bogus") :=
  ⟨error_wrapping_spec.1 demoEnv 20 (.arr [.arr [.str "yup.bogus"]])
     "Could not find validator yup.bogus" rfl,
   error_wrapping_spec.2.1 demoEnv 20
     (.arr [.arr [.str "yup.number"], .arr [.num 5]])
     (.typeError "string.indexOf is not a function") rfl rfl,
   error_wrapping_spec.2.2.2 demoEnv 10 (.str "yup.min")
     [.arr [.str "yup.bogus"]] .yupRoot (.member .yupRoot "min")
     [.arr [.str "yup.bogus"]]
     (.validation "Could not find validator yup.bogus") rfl rfl rfl⟩

end YupAst
